import Mathlib

/-!
Verification of the job-result normalization and status-classification
engine shared by `check-jobs.py` and `send-to-slack.py`.

The Python sources are embedded shallowly: JSON values become an inductive
type, Python dictionaries become association lists (iteration in insertion
order, as in CPython), Python sets become lists of which only membership is
observed, and every fallible operation returns `Except`/`Option`.  String
helpers (`str()`, truthiness, `lower()`, `casefold()`, `strip()`,
`rsplit("/", 1)`) are modelled character-for-character on the ASCII range,
which is the range every verified property exercises; `casefold` and
`lower` agree there and are both modelled by ASCII lowercasing.
-/

/-- A JSON value, as produced by `json.loads`.  Numeric literals are
modelled as integers; none of the verified properties involve numbers. -/
inductive Json where
  | null
  | bool (b : Bool)
  | num (n : Int)
  | str (s : String)
  | arr (items : List Json)
  | obj (fields : List (String × Json))

/-- First-match lookup in an association list, i.e. `dict.get(key)` for a
dictionary (whose keys are unique after `json.loads`). -/
def jsonLookup : List (String × Json) → String → Option Json
  | [], _ => none
  | (k, v) :: rest, key => if k = key then some v else jsonLookup rest key

/-- Python truthiness of a JSON value: `None`, `False`, `0`, `""`, `[]`
and `{}` are falsy, everything else is truthy. -/
def pyTruthy : Json → Bool
  | .null => false
  | .bool b => b
  | .num n => n != 0
  | .str s => s != ""
  | .arr [] => false
  | .arr (_ :: _) => true
  | .obj [] => false
  | .obj (_ :: _) => true

/-- A single quote character, used by Python `repr` of strings. -/
def pyQuoteChar : Char := Char.ofNat 39

mutual

/-- Python `repr` of a JSON value (strings are quoted, containers recurse).
Only the atomic cases are exercised by the verified properties. -/
def pyRepr : Json → String
  | .null => "None"
  | .bool true => "True"
  | .bool false => "False"
  | .num n => toString n
  | .str s => String.singleton pyQuoteChar ++ s ++ String.singleton pyQuoteChar
  | .arr items => "[" ++ pyReprList items ++ "]"
  | .obj fields => "\x7b" ++ pyReprFields fields ++ "\x7d"

/-- Comma-separated `repr`s of list elements. -/
def pyReprList : List Json → String
  | [] => ""
  | [x] => pyRepr x
  | x :: rest => pyRepr x ++ ", " ++ pyReprList rest

/-- Comma-separated `repr`s of dictionary entries. -/
def pyReprFields : List (String × Json) → String
  | [] => ""
  | [(k, v)] =>
      String.singleton pyQuoteChar ++ k ++ String.singleton pyQuoteChar ++ ": " ++ pyRepr v
  | (k, v) :: rest =>
      String.singleton pyQuoteChar ++ k ++ String.singleton pyQuoteChar ++ ": " ++ pyRepr v
        ++ ", " ++ pyReprFields rest

end

/-- Python `str()` of a JSON value: a string is returned verbatim, all
other values render as their `repr`. -/
def pyStr : Json → String
  | .str s => s
  | j => pyRepr j

/-- Python `str.lower()`, modelled on the ASCII range. -/
def pyLower (s : String) : String := String.mk (s.toList.map Char.toLower)

/-- Python `str.casefold()`; agrees with `lower()` on the ASCII range over
which the scripts compare names. -/
def caseFold (s : String) : String := String.mk (s.toList.map Char.toLower)

/-- Whitespace stripped by Python `str.strip()` (ASCII portion of
`str.isspace`). -/
def isPySpace (c : Char) : Bool :=
  c == ' ' || c == '\t' || c == '\n' || c == '\r' || c == '\x0b' || c == '\x0c'

/-- Python `str.strip()` on a character list: drop leading and trailing
whitespace. -/
def pyStripList (l : List Char) : List Char :=
  ((l.dropWhile isPySpace).reverse.dropWhile isPySpace).reverse

/-- The segment after the last `/`, i.e. `raw.rsplit("/", 1)[-1]`. -/
def afterLastSlash (l : List Char) : List Char :=
  (l.reverse.takeWhile (fun c => c != '/')).reverse

/-- `normalise_job_name` (identical in both scripts): keep only the
segment after the last `/` when one is present, then strip leading and
trailing whitespace. -/
def normalise_job_name (s : String) : String :=
  let l := s.toList
  let l := if l.contains '/' then afterLastSlash l else l
  String.mk (pyStripList l)

/-- Python `str.split(",")` on a character list: comma-separated segments,
with `""` splitting to one empty segment. -/
def splitCommaList : List Char → List (List Char)
  | [] => [[]]
  | c :: rest =>
      let r := splitCommaList rest
      if c = ',' then [] :: r
      else
        match r with
        | [] => [[c]]
        | h :: t => (c :: h) :: t

/-- Python `raw.split(",")`. -/
def pySplitComma (raw : String) : List String :=
  (splitCommaList raw.toList).map String.mk

/-- `parse_ignored_jobs`: split the raw environment string on commas,
normalise each part, drop empties, and casefold.  The Python set is
modelled as the list of its inserted elements; only membership is
observed. -/
def parse_ignored_jobs (raw : String) : List String :=
  (((pySplitComma raw).map normalise_job_name).filter (fun n => n ≠ "")).map caseFold

/-- A `(raw_name, raw_result)` pair, as in `check-jobs.py`. -/
abbrev JobRecord := String × String

/-- One iteration of the loop in `_extract_api_jobs`: non-dictionary
entries and jobs whose `status` is not `"completed"` are skipped; the
record carries `str(job.get("name", ""))` and
`str(job.get("conclusion", "unknown") or "unknown")`. -/
def apiJobRecord : Json → Option JobRecord
  | .obj fields =>
      let status := pyLower (pyStr (match jsonLookup fields "status" with
        | some v => if pyTruthy v then v else .str ""
        | none => .str ""))
      if status = "completed" then
        let rawName := match jsonLookup fields "name" with
          | some v => pyStr v
          | none => ""
        let conclusion := match jsonLookup fields "conclusion" with
          | some v => if pyTruthy v then pyStr v else "unknown"
          | none => "unknown"
        some (rawName, conclusion)
      else none
  | _ => none

/-- `_extract_api_jobs`: requires the `jobs` key to hold a list, else
returns `none` (Shape A does not match). -/
def extractApiJobs (fields : List (String × Json)) : Option (List JobRecord) :=
  match jsonLookup fields "jobs" with
  | some (.arr jobs) => some (jobs.filterMap apiJobRecord)
  | _ => none

/-- One entry of the `_extract_needs_jobs` loop: the key is the raw name;
an object value contributes `value.get("result") or value.get("conclusion")
or "unknown"` (Python truthiness chain) passed through `str()`; any other
value contributes `"unknown"`. -/
def needsJobRecord (kv : String × Json) : JobRecord :=
  match kv with
  | (key, .obj vfields) =>
      let r1 : Json := match jsonLookup vfields "result" with
        | some x => if pyTruthy x then x else .null
        | none => .null
      let r2 : Json := if pyTruthy r1 then r1 else
        match jsonLookup vfields "conclusion" with
        | some x => if pyTruthy x then x else .null
        | none => .null
      (key, if pyTruthy r2 then pyStr r2 else "unknown")
  | (key, _) => (key, "unknown")

/-- `_extract_needs_jobs`: every top-level entry of the object contributes
one record (the `isinstance` guard always holds for an object). -/
def extractNeedsJobs (fields : List (String × Json)) : Option (List JobRecord) :=
  some (fields.map needsJobRecord)

/-- The record-selection step of `bucket_jobs`: Shape A is tried first and
Shape B only when Shape A returned `None`; a non-object top level yields
no records. -/
def selectRecords : Json → Option (List JobRecord)
  | .obj fields =>
      match extractApiJobs fields with
      | some records => some records
      | none => extractNeedsJobs fields
  | _ => none

/-- The six bucket lists returned by `bucket_jobs`. -/
structure Buckets where
  success : List String
  failure : List String
  cancelled : List String
  skipped : List String
  timed_out : List String
  other : List String
deriving DecidableEq

/-- All six buckets empty. -/
def emptyBuckets : Buckets := ⟨[], [], [], [], [], []⟩

/-- One iteration of the bucketing loop in `bucket_jobs`: drop empty
normalised names, drop names whose casefold is in the (non-empty)
normalised ignore set, replace a falsy raw result with `"unknown"`, then
dispatch on the five known result strings with an `Other` fallback labelled
`"name:result"`. -/
def bucketStep (rec : JobRecord) (ignNorm : List String) (B : Buckets) : Buckets :=
  let name := normalise_job_name rec.1
  if name = "" then B
  else if ignNorm ≠ [] ∧ caseFold name ∈ ignNorm then B
  else
    let result := if rec.2 = "" then "unknown" else rec.2
    if result = "success" then { B with success := name :: B.success }
    else if result = "failure" then { B with failure := name :: B.failure }
    else if result = "cancelled" then { B with cancelled := name :: B.cancelled }
    else if result = "skipped" then { B with skipped := name :: B.skipped }
    else if result = "timed_out" then { B with timed_out := name :: B.timed_out }
    else { B with other := (name ++ ":" ++ result) :: B.other }

/-- The bucketing loop of `bucket_jobs` over an extracted record list.
Processing the head before the recursive result reproduces the source's
append-in-iteration-order within each bucket. -/
def bucketJobsRecords : List JobRecord → List String → Buckets
  | [], _ => emptyBuckets
  | rec :: rest, ignNorm => bucketStep rec ignNorm (bucketJobsRecords rest ignNorm)

/-- The `ignored_normalised` set computed inside `bucket_jobs`: empty when
no ignore set was supplied or the supplied set is empty, otherwise the
casefold of every supplied name. -/
def normalisedIgnoreSet : Option (List String) → List String
  | some l => if l ≠ [] then l.map caseFold else []
  | none => []

/-- `bucket_jobs`: select records from either supported shape, fail with
the unsupported-structure error when none (or zero) were produced, then
bucket.  The fatal `error()` call is modelled as `Except.error` carrying
the printed message. -/
def bucket_jobs (data : Json) (ignored : Option (List String)) : Except String Buckets :=
  match selectRecords data with
  | none => .error "Unsupported JSON structure for job results."
  | some [] => .error "Unsupported JSON structure for job results."
  | some records => .ok (bucketJobsRecords records (normalisedIgnoreSet ignored))

/-- The job names rendered by `print_sorted_section`, in order: the bucket
list is deduplicated (`set(lines)`), sorted case-insensitively
(`key=str.casefold`), and empty names are skipped while printing. -/
def sectionNames (lines : List String) : List String :=
  (lines.dedup.mergeSort (fun a b => decide (caseFold a ≤ caseFold b))).filter
    (fun n => n ≠ "")

/-- The input mode chosen by `main` in `check-jobs.py`. -/
inductive InputMode where
  | fileMode (path : String)
  | apiMode
deriving DecidableEq

/-- The dispatch at the top of `main`: exactly two `argv` entries (program
name plus one positional argument) select file mode; every other argument
count falls through to API mode. -/
def chooseInputMode : List String → InputMode
  | [_, path] => .fileMode path
  | _ => .apiMode

/-- The lowered conclusion the notifier reads from a completed job:
`str(job.get("conclusion") or "").lower()`. -/
def jobConclusionLower (fields : List (String × Json)) : String :=
  pyLower (pyStr (match jsonLookup fields "conclusion" with
    | some v => if pyTruthy v then v else .str ""
    | none => .str ""))

/-- `determine_workflow_color_and_msg` from `send-to-slack.py`: neutral
pair for an empty job list; all conclusions in `{success, skipped}` gives
the affirmative pair; else any `cancelled` gives the warning pair; else
the failure pair. -/
def determine_workflow_color_and_msg
    (completed_jobs : List (List (String × Json))) : String × String :=
  match completed_jobs with
  | [] => ("warning", "Unknown:")
  | jobs =>
      let conclusions := jobs.map jobConclusionLower
      if conclusions.all (fun c => c == "success" || c == "skipped") then
        ("good", "Success:")
      else if conclusions.any (fun c => c == "cancelled") then
        ("warning", "Cancelled:")
      else
        ("danger", "Failed:")

example : normalise_job_name "Lint / Lint code" = "Lint code" := by decide
example : normalise_job_name "A/B/C" = "C" := by decide
example : normalise_job_name "  trailing  " = "trailing" := by decide
example : normalise_job_name "x/" = "" := by decide
example : parse_ignored_jobs "org/Build , Test" = ["build", "test"] := by decide
example :
    bucket_jobs (.obj [("jobs", .arr [.obj [("name", .str "CI Status"),
      ("conclusion", .str "success"), ("status", .str "completed")]])]) none
    = .ok ⟨["CI Status"], [], [], [], [], []⟩ := rfl
example :
    bucket_jobs (.obj [("jobs", .arr [])]) none
    = .error "Unsupported JSON structure for job results." := rfl
example : chooseInputMode ["check-jobs.py", "a.json", "b.json"] = .apiMode := by decide
example : determine_workflow_color_and_msg [] = ("warning", "Unknown:") := rfl
example :
    determine_workflow_color_and_msg
      [[("conclusion", .str "success")], [("conclusion", .str "skipped")]]
    = ("good", "Success:") := by decide
example :
    determine_workflow_color_and_msg
      [[("conclusion", .str "failure")], [("conclusion", .str "cancelled")]]
    = ("warning", "Cancelled:") := by decide
example :
    determine_workflow_color_and_msg [[("conclusion", .str "failure")]]
    = ("danger", "Failed:") := by decide

/-- Claim C10: an empty list of completed jobs yields the neutral pair
`("warning", "Unknown:")` rather than any of the three policy outcomes. -/
theorem empty_jobs_verdict_unknown :
    determine_workflow_color_and_msg [] = ("warning", "Unknown:") := rfl

/-- Counterexample to claim C3 as stated: invoked with two positional
arguments the summariser does not fail with a usage error; it proceeds in
API mode. -/
theorem extra_args_usage_error_cex :
    chooseInputMode ["check-jobs.py", "a.json", "b.json"] = InputMode.apiMode := rfl

/-- Claim C3 (amended): with more than one positional argument (or none)
the summariser proceeds in API mode, ignoring the extra arguments; only
exactly one positional argument selects file mode, and no usage error
exists. -/
theorem extra_args_api_mode (argv : List String) (h : argv.length ≠ 2) :
    chooseInputMode argv = InputMode.apiMode := by
  match argv, h with
  | [], _ => rfl
  | [_], _ => rfl
  | [_, _], h => exact absurd rfl h
  | _ :: _ :: _ :: _, _ => rfl

/-- Witness for the amended claim C3 at a four-entry argument vector. -/
theorem extra_args_api_mode_witness :
    chooseInputMode ["check-jobs.py", "one.json", "two.json", "three.json"]
      = InputMode.apiMode :=
  extra_args_api_mode ["check-jobs.py", "one.json", "two.json", "three.json"] (by decide)

/-- Counterexample to claim C6 as stated: the structurally valid input
whose `jobs` key holds an (empty) list does trigger the
unsupported-structure failure. -/
theorem structure_error_on_valid_empty_cex :
    bucket_jobs (.obj [("jobs", .arr [])]) none
      = .error "Unsupported JSON structure for job results." := rfl

/-- Claim C6 (amended): `bucket_jobs` fails with the unsupported-structure
error exactly when no record was extracted — when the top level is not an
object, or when the selected shape produced zero records, even from a
structurally valid input such as an object whose `jobs` key holds an empty
list; in particular every non-object input fails. -/
theorem bucket_jobs_error_iff (data : Json) (ignored : Option (List String)) :
    ((∃ e, bucket_jobs data ignored = .error e) ↔
      (selectRecords data = none ∨ selectRecords data = some [])) ∧
    ((∀ fields, data ≠ Json.obj fields) →
      bucket_jobs data ignored = .error "Unsupported JSON structure for job results.") := by
  constructor
  · unfold bucket_jobs
    cases hsel : selectRecords data with
    | none => simp
    | some records =>
        cases records with
        | nil => simp
        | cons r rs => simp
  · intro hobj
    have hnone : selectRecords data = none := by
      cases data <;> first | rfl | exact absurd rfl (hobj _)
    unfold bucket_jobs
    rw [hnone]

/-- Claim C2: for a non-empty list of completed jobs the notifier returns
the affirmative pair when every job's (lowered) conclusion is `success` or
`skipped`, otherwise the cancelled pair when some conclusion is
`cancelled`, and otherwise the failure pair. -/
theorem verdict_all_succeed_or_skip_policy
    (jobs : List (List (String × Json))) (h : jobs ≠ []) :
    ((∀ c ∈ jobs.map jobConclusionLower, c = "success" ∨ c = "skipped") →
        determine_workflow_color_and_msg jobs = ("good", "Success:")) ∧
    ((¬ ∀ c ∈ jobs.map jobConclusionLower, c = "success" ∨ c = "skipped") →
      ("cancelled" ∈ jobs.map jobConclusionLower →
          determine_workflow_color_and_msg jobs = ("warning", "Cancelled:")) ∧
      ("cancelled" ∉ jobs.map jobConclusionLower →
          determine_workflow_color_and_msg jobs = ("danger", "Failed:"))) := by
  match jobs, h with
  | j :: rest, _ =>
    refine ⟨fun hall => ?_, fun hnall => ⟨fun hcanc => ?_, fun hncanc => ?_⟩⟩
    · have hA : ((j :: rest).map jobConclusionLower).all
          (fun c => c == "success" || c == "skipped") = true := by
        simp only [List.all_eq_true, Bool.or_eq_true, beq_iff_eq]
        exact hall
      simp only [determine_workflow_color_and_msg]
      rw [if_pos hA]
    · have hA : ((j :: rest).map jobConclusionLower).all
          (fun c => c == "success" || c == "skipped") = false := by
        cases hAe : ((j :: rest).map jobConclusionLower).all
            (fun c => c == "success" || c == "skipped") with
        | false => rfl
        | true =>
            exact absurd
              (by simpa only [List.all_eq_true, Bool.or_eq_true, beq_iff_eq] using hAe) hnall
      have hB : ((j :: rest).map jobConclusionLower).any
          (fun c => c == "cancelled") = true := by
        simp only [List.any_eq_true, beq_iff_eq]
        exact ⟨"cancelled", hcanc, rfl⟩
      simp only [determine_workflow_color_and_msg]
      rw [if_neg (by rw [hA]; simp), if_pos hB]
    · have hA : ((j :: rest).map jobConclusionLower).all
          (fun c => c == "success" || c == "skipped") = false := by
        cases hAe : ((j :: rest).map jobConclusionLower).all
            (fun c => c == "success" || c == "skipped") with
        | false => rfl
        | true =>
            exact absurd
              (by simpa only [List.all_eq_true, Bool.or_eq_true, beq_iff_eq] using hAe) hnall
      have hB : ((j :: rest).map jobConclusionLower).any
          (fun c => c == "cancelled") = false := by
        cases hBe : ((j :: rest).map jobConclusionLower).any
            (fun c => c == "cancelled") with
        | false => rfl
        | true =>
            obtain ⟨c, hc, hceq⟩ := by
              simpa only [List.any_eq_true, beq_iff_eq] using hBe
            exact absurd (hceq ▸ hc) hncanc
      simp only [determine_workflow_color_and_msg]
      rw [if_neg (by rw [hA]; simp), if_neg (by rw [hB]; simp)]

/-- Witness for claim C2 on a run of one successful and one skipped job. -/
theorem verdict_all_succeed_or_skip_policy_witness :
    determine_workflow_color_and_msg
      [[("conclusion", Json.str "success")], [("conclusion", Json.str "skipped")]]
      = ("good", "Success:") :=
  (verdict_all_succeed_or_skip_policy
      [[("conclusion", Json.str "success")], [("conclusion", Json.str "skipped")]]
      (List.cons_ne_nil _ _)).1 (by decide)

lemma dropWhile_self_idem (p : α → Bool) :
    ∀ l : List α, (l.dropWhile p).dropWhile p = l.dropWhile p := by
  intro l
  induction l with
  | nil => rfl
  | cons a t ih =>
      by_cases h : p a
      · rw [List.dropWhile_cons_of_pos h, ih]
      · rw [List.dropWhile_cons_of_neg h, List.dropWhile_cons_of_neg h]

lemma dropWhile_prefix_self (p : α → Bool) {B A : List α}
    (hpre : B <+: A) (hA : A.dropWhile p = A) : B.dropWhile p = B := by
  cases B with
  | nil => rfl
  | cons b t =>
      obtain ⟨C, hC⟩ := hpre
      by_cases h : p b
      · exfalso
        rw [← hC, List.cons_append, List.dropWhile_cons_of_pos h] at hA
        have hlen := ((List.dropWhile_suffix (l := t ++ C) p).sublist).length_le
        rw [hA] at hlen
        simp at hlen
      · exact List.dropWhile_cons_of_neg h

lemma mem_of_mem_pyStripList {c : Char} {l : List Char}
    (h : c ∈ pyStripList l) : c ∈ l := by
  unfold pyStripList at h
  rw [List.mem_reverse] at h
  have h2 := (List.dropWhile_suffix (p := isPySpace)).subset h
  rw [List.mem_reverse] at h2
  exact (List.dropWhile_suffix (p := isPySpace)).subset h2

lemma not_slash_mem_afterLastSlash (l : List Char) : '/' ∉ afterLastSlash l := by
  intro h
  unfold afterLastSlash at h
  rw [List.mem_reverse] at h
  have := List.mem_takeWhile_imp h
  simp at this

lemma pyStripList_idem (l : List Char) :
    pyStripList (pyStripList l) = pyStripList l := by
  have hA : (l.dropWhile isPySpace).dropWhile isPySpace = l.dropWhile isPySpace :=
    dropWhile_self_idem isPySpace l
  have hpre : pyStripList l <+: l.dropWhile isPySpace := by
    have h1 := (List.dropWhile_suffix (l := (l.dropWhile isPySpace).reverse)
      (p := isPySpace)).reverse
    rwa [List.reverse_reverse] at h1
  have hR : (pyStripList l).dropWhile isPySpace = pyStripList l :=
    dropWhile_prefix_self isPySpace hpre hA
  show (((pyStripList l).dropWhile isPySpace).reverse.dropWhile isPySpace).reverse
      = pyStripList l
  rw [hR]
  have hrev : (pyStripList l).reverse
      = (l.dropWhile isPySpace).reverse.dropWhile isPySpace := by
    unfold pyStripList
    rw [List.reverse_reverse]
  rw [hrev, dropWhile_self_idem]
  rfl

lemma toList_mk (l : List Char) : (String.mk l).toList = l := rfl

lemma contains_eq_false_of_not_mem {l : List Char} {c : Char} (h : c ∉ l) :
    l.contains c = false := by
  simp [List.contains]
  exact h

/-- Claim C8: `normalise_job_name` is idempotent — normalising an already
normalised name changes nothing, for every input string. -/
theorem normalise_job_name_idempotent (s : String) :
    normalise_job_name (normalise_job_name s) = normalise_job_name s := by
  have key : ∀ m : List Char, '/' ∉ m →
      normalise_job_name (String.mk (pyStripList m)) = String.mk (pyStripList m) := by
    intro m hm
    have h1 : '/' ∉ pyStripList m := fun hc => hm (mem_of_mem_pyStripList hc)
    have h2 : (pyStripList m).contains '/' = false :=
      contains_eq_false_of_not_mem h1
    show String.mk (pyStripList (if (pyStripList m).contains '/' = true then
        afterLastSlash (pyStripList m) else pyStripList m)) = String.mk (pyStripList m)
    rw [if_neg (by rw [h2]; simp), pyStripList_idem]
  by_cases h : s.toList.contains '/' = true
  · have hs : normalise_job_name s = String.mk (pyStripList (afterLastSlash s.toList)) := by
      show String.mk (pyStripList (if s.toList.contains '/' = true then
          afterLastSlash s.toList else s.toList)) = _
      rw [if_pos h]
    rw [hs]
    exact key (afterLastSlash s.toList) (not_slash_mem_afterLastSlash s.toList)
  · have hs : normalise_job_name s = String.mk (pyStripList s.toList) := by
      show String.mk (pyStripList (if s.toList.contains '/' = true then
          afterLastSlash s.toList else s.toList)) = _
      rw [if_neg h]
    rw [hs]
    refine key s.toList (fun hmem => h ?_)
    simp [List.contains]
    exact hmem

/-- Claim C4: whenever the top-level object has a `jobs` key holding a
list, Shape A structurally matches and `bucket_jobs` uses its records —
even when they are zero — and Shape A fails to match exactly when the
`jobs` key is absent or not a list, which is the only case in which
Shape B is consulted. -/
theorem shape_a_precedence (fields : List (String × Json)) :
    (∀ l, jsonLookup fields "jobs" = some (Json.arr l) →
      extractApiJobs fields = some (l.filterMap apiJobRecord) ∧
      selectRecords (Json.obj fields) = extractApiJobs fields) ∧
    (extractApiJobs fields = none ↔
      ¬ ∃ l, jsonLookup fields "jobs" = some (Json.arr l)) ∧
    (extractApiJobs fields = none →
      selectRecords (Json.obj fields) = extractNeedsJobs fields) := by
  refine ⟨fun l hl => ?_, ?_, fun hnone => ?_⟩
  · have hapi : extractApiJobs fields = some (l.filterMap apiJobRecord) := by
      unfold extractApiJobs
      rw [hl]
    refine ⟨hapi, ?_⟩
    show (match extractApiJobs fields with
      | some records => some records
      | none => extractNeedsJobs fields) = extractApiJobs fields
    rw [hapi]
  · unfold extractApiJobs
    cases hjobs : jsonLookup fields "jobs" with
    | none => simp
    | some j => cases j <;> simp
  · show (match extractApiJobs fields with
      | some records => some records
      | none => extractNeedsJobs fields) = extractNeedsJobs fields
    rw [hnone]

lemma bucketStep_mono (rec : JobRecord) (ign : List String) (B : Buckets) :
    B.success ⊆ (bucketStep rec ign B).success ∧
    B.failure ⊆ (bucketStep rec ign B).failure ∧
    B.cancelled ⊆ (bucketStep rec ign B).cancelled ∧
    B.skipped ⊆ (bucketStep rec ign B).skipped ∧
    B.timed_out ⊆ (bucketStep rec ign B).timed_out ∧
    B.other ⊆ (bucketStep rec ign B).other := by
  simp only [bucketStep]
  repeat' split
  all_goals
    refine ⟨?_, ?_, ?_, ?_, ?_, ?_⟩ <;>
      first
        | exact List.Subset.refl _
        | exact List.subset_cons_self _ _

lemma bucketStep_classifies (n r : String) (ign : List String) (B : Buckets)
    (hname : normalise_job_name n ≠ "")
    (hig : caseFold (normalise_job_name n) ∉ ign) :
    (r = "success" → normalise_job_name n ∈ (bucketStep (n, r) ign B).success) ∧
    (r = "failure" → normalise_job_name n ∈ (bucketStep (n, r) ign B).failure) ∧
    (r = "cancelled" → normalise_job_name n ∈ (bucketStep (n, r) ign B).cancelled) ∧
    (r = "skipped" → normalise_job_name n ∈ (bucketStep (n, r) ign B).skipped) ∧
    (r = "timed_out" → normalise_job_name n ∈ (bucketStep (n, r) ign B).timed_out) ∧
    (r ∉ (["success", "failure", "cancelled", "skipped", "timed_out"] : List String) →
      r ≠ "" → normalise_job_name n ++ ":" ++ r ∈ (bucketStep (n, r) ign B).other) ∧
    (r = "" → normalise_job_name n ++ ":" ++ "unknown" ∈ (bucketStep (n, r) ign B).other) := by
  simp only [bucketStep]
  rw [if_neg hname, if_neg (fun hand => hig hand.2)]
  refine ⟨fun h => ?_, fun h => ?_, fun h => ?_, fun h => ?_, fun h => ?_,
    fun hnot hne => ?_, fun h => ?_⟩
  · subst h; simp
  · subst h; simp
  · subst h; simp
  · subst h; simp
  · subst h; simp
  · have h1 : r ≠ "success" := fun h => hnot (by rw [h]; simp)
    have h2 : r ≠ "failure" := fun h => hnot (by rw [h]; simp)
    have h3 : r ≠ "cancelled" := fun h => hnot (by rw [h]; simp)
    have h4 : r ≠ "skipped" := fun h => hnot (by rw [h]; simp)
    have h5 : r ≠ "timed_out" := fun h => hnot (by rw [h]; simp)
    rw [if_neg hne, if_neg h1, if_neg h2, if_neg h3, if_neg h4, if_neg h5]
    exact List.mem_cons_self _ _
  · subst h; simp

/-- Claim C5: bucket classification is total — every surviving record
(non-empty normalised name, not ignored) lands in the bucket matching its
raw result when that is one of the five known strings, in `Other` with the
label `name:result` for any other non-empty result, and in `Other` with
the label `name:unknown` when the raw result is empty. -/
theorem bucket_classification_total
    (records : List JobRecord) (ignNorm : List String) (n r : String)
    (hmem : (n, r) ∈ records)
    (hname : normalise_job_name n ≠ "")
    (hig : caseFold (normalise_job_name n) ∉ ignNorm) :
    (r = "success" → normalise_job_name n ∈ (bucketJobsRecords records ignNorm).success) ∧
    (r = "failure" → normalise_job_name n ∈ (bucketJobsRecords records ignNorm).failure) ∧
    (r = "cancelled" → normalise_job_name n ∈ (bucketJobsRecords records ignNorm).cancelled) ∧
    (r = "skipped" → normalise_job_name n ∈ (bucketJobsRecords records ignNorm).skipped) ∧
    (r = "timed_out" → normalise_job_name n ∈ (bucketJobsRecords records ignNorm).timed_out) ∧
    (r ∉ (["success", "failure", "cancelled", "skipped", "timed_out"] : List String) →
      r ≠ "" →
      normalise_job_name n ++ ":" ++ r ∈ (bucketJobsRecords records ignNorm).other) ∧
    (r = "" →
      normalise_job_name n ++ ":" ++ "unknown" ∈ (bucketJobsRecords records ignNorm).other) := by
  induction records with
  | nil => cases hmem
  | cons hd tl ih =>
      rcases List.mem_cons.mp hmem with heq | htl
      · rw [← heq]
        exact bucketStep_classifies n r ignNorm (bucketJobsRecords tl ignNorm) hname hig
      · obtain ⟨i1, i2, i3, i4, i5, i6, i7⟩ := ih htl
        obtain ⟨m1, m2, m3, m4, m5, m6⟩ :=
          bucketStep_mono hd ignNorm (bucketJobsRecords tl ignNorm)
        exact ⟨fun h => m1 (i1 h), fun h => m2 (i2 h), fun h => m3 (i3 h),
          fun h => m4 (i4 h), fun h => m5 (i5 h),
          fun h h2 => m6 (i6 h h2), fun h => m6 (i7 h)⟩

/-- Witness for claim C5 on a successful job with a prefixed name. -/
theorem bucket_classification_total_witness :
    normalise_job_name "org/Build" ∈
      (bucketJobsRecords [("org/Build", "success"), ("Test", "mystery")] []).success :=
  (bucket_classification_total [("org/Build", "success"), ("Test", "mystery")] []
      "org/Build" "success" (by simp) (by decide) (by simp)).1 rfl

lemma normalisedIgnoreSet_some (P : List String) :
    normalisedIgnoreSet (some P) = P.map caseFold := by
  show (if P ≠ [] then P.map caseFold else []) = P.map caseFold
  by_cases h : P = []
  · subst h; simp
  · rw [if_pos h]

lemma bucketStep_surviving_ne_empty (n r : String) (ign : List String)
    (hname : normalise_job_name n ≠ "")
    (hig : caseFold (normalise_job_name n) ∉ ign) :
    bucketStep (n, r) ign emptyBuckets ≠ emptyBuckets := by
  simp only [bucketStep]
  rw [if_neg hname, if_neg (fun hand => hig hand.2)]
  intro hcontra
  repeat' split at hcontra
  all_goals simp [emptyBuckets] at hcontra

/-- Claim C7: with the ignore set parsed by `parse_ignored_jobs`, a
surviving-name job is excluded from every bucket exactly when the casefold
of its normalised name is in the casefolded ignore set, and the parsed
ignore set consists exactly of the casefolded normalisations of the
non-empty comma-separated entries. -/
theorem ignore_list_case_insensitive (n r raw : String)
    (hname : normalise_job_name n ≠ "") :
    (bucketJobsRecords [(n, r)] (normalisedIgnoreSet (some (parse_ignored_jobs raw)))
        = emptyBuckets ↔
      caseFold (normalise_job_name n) ∈ (parse_ignored_jobs raw).map caseFold) ∧
    (∀ x, x ∈ parse_ignored_jobs raw ↔
      ∃ part ∈ pySplitComma raw,
        normalise_job_name part ≠ "" ∧ x = caseFold (normalise_job_name part)) := by
  constructor
  · rw [normalisedIgnoreSet_some]
    constructor
    · intro hempty
      by_contra hnotmem
      exact bucketStep_surviving_ne_empty n r
        ((parse_ignored_jobs raw).map caseFold) hname hnotmem hempty
    · intro hmem
      show bucketStep (n, r) ((parse_ignored_jobs raw).map caseFold) emptyBuckets
        = emptyBuckets
      simp only [bucketStep]
      rw [if_neg hname, if_pos (And.intro (List.ne_nil_of_mem hmem) hmem)]
  · intro x
    unfold parse_ignored_jobs
    simp only [List.mem_map, List.mem_filter]
    constructor
    · rintro ⟨a, ⟨⟨part, hpart, rfl⟩, hne⟩, rfl⟩
      exact ⟨part, hpart, by simpa using hne, rfl⟩
    · rintro ⟨part, hpart, hne, rfl⟩
      exact ⟨normalise_job_name part, ⟨⟨part, hpart, rfl⟩, by simpa using hne⟩, rfl⟩

/-- Witness for claim C7: the job `"Build"` is suppressed when the raw
ignore string is `"build"`. -/
theorem ignore_list_case_insensitive_witness :
    bucketJobsRecords [("Build", "success")]
      (normalisedIgnoreSet (some (parse_ignored_jobs "build"))) = emptyBuckets :=
  ((ignore_list_case_insensitive "Build" "success" "build" (by decide)).1).mpr (by decide)

/-- Claim C9: the rendered bucket section lists every distinct non-empty
job name of the bucket exactly once (duplicates collapse), in
case-insensitive order. -/
theorem section_names_dedup_sorted (lines : List String) :
    (∀ n ∈ lines, n ≠ "" → (sectionNames lines).count n = 1) ∧
    List.Pairwise (fun a b => caseFold a ≤ caseFold b) (sectionNames lines) := by
  constructor
  · intro n hn hne
    unfold sectionNames
    rw [List.count_filter (by simpa using hne)]
    rw [(List.mergeSort_perm lines.dedup
      (fun a b => decide (caseFold a ≤ caseFold b))).count_eq]
    rw [List.count_dedup]
    simp [hn]
  · unfold sectionNames
    have hsorted : List.Pairwise
        (fun a b => decide (caseFold a ≤ caseFold b) = true)
        (lines.dedup.mergeSort (fun a b => decide (caseFold a ≤ caseFold b))) :=
      List.sorted_mergeSort
        (fun a b c h1 h2 => by
          simp only [decide_eq_true_eq] at h1 h2 ⊢
          exact le_trans h1 h2)
        (fun a b => by
          simp only [Bool.or_eq_true, decide_eq_true_eq]
          exact le_total (caseFold a) (caseFold b))
        lines.dedup
    exact (hsorted.filter (fun m => m ≠ "")).imp (fun h => by simpa using h)

/-- Counterexample to claim C1 as stated: with the override flag unset
(no ignore configuration at all), the job named `"CI Status"` is not
suppressed — it appears in the Success bucket of `bucket_jobs`. -/
theorem umbrella_status_not_suppressed_cex :
    bucket_jobs (.obj [("jobs", .arr [.obj [("name", .str "CI Status"),
        ("conclusion", .str "success"), ("status", .str "completed")]])]) none
      = .ok ⟨["CI Status"], [], [], [], [], []⟩ := rfl

lemma single_api_job_select (n r : String) (hne : r ≠ "") :
    selectRecords (Json.obj [("jobs", Json.arr [Json.obj [("name", Json.str n),
        ("conclusion", Json.str r), ("status", Json.str "completed")]])])
      = some [(n, r)] := by
  have ht : pyTruthy (Json.str r) = true := by
    simp [pyTruthy]
    exact hne
  show some [(n, if pyTruthy (Json.str r) then pyStr (Json.str r) else "unknown")]
    = some [(n, r)]
  rw [if_pos ht]
  rfl

/-- Claim C1 (amended): no umbrella-status suppression exists in the code
and there is no override flag — a completed job whose normalised name ends
with `"Status"` is bucketed like any other job: whatever its conclusion,
it appears in the bucket matching that result, with the `Other` fallback
labelled `name:result` and an empty conclusion read as `unknown`. -/
theorem umbrella_status_jobs_bucketed (n r : String)
    (hsuf : "Status".toList <:+ (normalise_job_name n).toList) :
    (r = "success" → bucket_jobs (.obj [("jobs", .arr [.obj [("name", .str n),
        ("conclusion", .str r), ("status", .str "completed")]])]) none
      = .ok ⟨[normalise_job_name n], [], [], [], [], []⟩) ∧
    (r = "failure" → bucket_jobs (.obj [("jobs", .arr [.obj [("name", .str n),
        ("conclusion", .str r), ("status", .str "completed")]])]) none
      = .ok ⟨[], [normalise_job_name n], [], [], [], []⟩) ∧
    (r = "cancelled" → bucket_jobs (.obj [("jobs", .arr [.obj [("name", .str n),
        ("conclusion", .str r), ("status", .str "completed")]])]) none
      = .ok ⟨[], [], [normalise_job_name n], [], [], []⟩) ∧
    (r = "skipped" → bucket_jobs (.obj [("jobs", .arr [.obj [("name", .str n),
        ("conclusion", .str r), ("status", .str "completed")]])]) none
      = .ok ⟨[], [], [], [normalise_job_name n], [], []⟩) ∧
    (r = "timed_out" → bucket_jobs (.obj [("jobs", .arr [.obj [("name", .str n),
        ("conclusion", .str r), ("status", .str "completed")]])]) none
      = .ok ⟨[], [], [], [], [normalise_job_name n], []⟩) ∧
    (r ∉ (["success", "failure", "cancelled", "skipped", "timed_out"] : List String) →
      r ≠ "" → bucket_jobs (.obj [("jobs", .arr [.obj [("name", .str n),
        ("conclusion", .str r), ("status", .str "completed")]])]) none
      = .ok ⟨[], [], [], [], [], [normalise_job_name n ++ ":" ++ r]⟩) ∧
    (r = "" → bucket_jobs (.obj [("jobs", .arr [.obj [("name", .str n),
        ("conclusion", .str r), ("status", .str "completed")]])]) none
      = .ok ⟨[], [], [], [], [], [normalise_job_name n ++ ":" ++ "unknown"]⟩) := by
  have hname : normalise_job_name n ≠ "" := by
    intro h
    rw [h] at hsuf
    obtain ⟨t, ht⟩ := hsuf
    have hnil := List.append_eq_nil.mp ht
    exact absurd hnil.2 (by decide)
  refine ⟨fun h => ?_, fun h => ?_, fun h => ?_, fun h => ?_, fun h => ?_,
    fun hnot hne => ?_, fun h => ?_⟩
  · subst h
    show Except.ok (bucketStep (n, "success") [] emptyBuckets) = _
    refine congrArg Except.ok ?_
    simp only [bucketStep]
    rw [if_neg hname, if_neg (by simp)]
    simp [emptyBuckets]
  · subst h
    show Except.ok (bucketStep (n, "failure") [] emptyBuckets) = _
    refine congrArg Except.ok ?_
    simp only [bucketStep]
    rw [if_neg hname, if_neg (by simp)]
    simp [emptyBuckets]
  · subst h
    show Except.ok (bucketStep (n, "cancelled") [] emptyBuckets) = _
    refine congrArg Except.ok ?_
    simp only [bucketStep]
    rw [if_neg hname, if_neg (by simp)]
    simp [emptyBuckets]
  · subst h
    show Except.ok (bucketStep (n, "skipped") [] emptyBuckets) = _
    refine congrArg Except.ok ?_
    simp only [bucketStep]
    rw [if_neg hname, if_neg (by simp)]
    simp [emptyBuckets]
  · subst h
    show Except.ok (bucketStep (n, "timed_out") [] emptyBuckets) = _
    refine congrArg Except.ok ?_
    simp only [bucketStep]
    rw [if_neg hname, if_neg (by simp)]
    simp [emptyBuckets]
  · have hstep : bucket_jobs (.obj [("jobs", .arr [.obj [("name", .str n),
        ("conclusion", .str r), ("status", .str "completed")]])]) none
        = Except.ok (bucketStep (n, r) [] emptyBuckets) := by
      unfold bucket_jobs
      rw [single_api_job_select n r hne]
      rfl
    rw [hstep]
    refine congrArg Except.ok ?_
    have h1 : r ≠ "success" := fun hh => hnot (by rw [hh]; simp)
    have h2 : r ≠ "failure" := fun hh => hnot (by rw [hh]; simp)
    have h3 : r ≠ "cancelled" := fun hh => hnot (by rw [hh]; simp)
    have h4 : r ≠ "skipped" := fun hh => hnot (by rw [hh]; simp)
    have h5 : r ≠ "timed_out" := fun hh => hnot (by rw [hh]; simp)
    simp only [bucketStep]
    rw [if_neg hname, if_neg (by simp), if_neg hne, if_neg h1, if_neg h2, if_neg h3,
      if_neg h4, if_neg h5]
    simp [emptyBuckets]
  · subst h
    show Except.ok (bucketStep (n, "unknown") [] emptyBuckets) = _
    refine congrArg Except.ok ?_
    simp only [bucketStep]
    rw [if_neg hname, if_neg (by simp)]
    simp [emptyBuckets]

/-- Witness for the amended claim C1: the job `"CI Status"` with a failed
conclusion lands in the Failure bucket. -/
theorem umbrella_status_jobs_bucketed_witness :
    bucket_jobs (.obj [("jobs", .arr [.obj [("name", .str "CI Status"),
        ("conclusion", .str "failure"), ("status", .str "completed")]])]) none
      = .ok ⟨[], [normalise_job_name "CI Status"], [], [], [], []⟩ :=
  (umbrella_status_jobs_bucketed "CI Status" "failure" ⟨"CI ".toList, rfl⟩).2.1 rfl
